import Mathlib

/-!
Verification development for the NOAA climate-data aggregator
(`src/climate.c`).  The program reads tab-delimited observation records,
folds them into one running-statistics record per state code held in a
fixed array of 50 slots, and prints a report.

Embedding conventions:
* C `double` / `long double` values are modelled as exact rationals (`ℚ`);
  the properties checked here are order-theoretic and structural, so they
  are insensitive to rounding.
* C `long` is modelled as `ℤ`; the C integer division `atol(...) / 1000`
  truncates toward zero, hence `Int.tdiv`.
* `unsigned long num_records` is modelled as `ℕ` (it is incremented once
  per input line, so it never approaches its 2^64 wrap).
* The `NULL`-terminated prefix of the 50-slot `states` array is modelled
  as a `List ClimateInfo`; slot `i` of the array is element `i` of the
  list.  The capacity bound and the out-of-bounds access at slot 50 are
  modelled separately through `scanIdx` / `scansInBounds`.
* Behaviour that is undefined in the C source (reads of indeterminate
  `data[i]` when a line has fewer than 9 tab-separated fields, the
  out-of-bounds write for more than 9 fields, `strcpy` overflow of
  `char code[3]`, and the `states[50]` access) is modelled as `none` in
  `Option`-valued processing functions.
-/

namespace Climate

/-- One parsed input record, in the order the fields are pulled out of
`data[]` in `analyze_file` (`src/climate.c:158-168`): `data[0]` state
code, `data[1]` epoch milliseconds, `data[3]` humidity, `data[4]` snow
flag, `data[5]` cloud cover, `data[6]` lightning flag, `data[8]` surface
temperature in Kelvin.  `data[2]` (geohash) and `data[7]` (pressure) are
never read by the aggregation. -/
structure Obs where
  code : String
  epochMillis : ℤ
  humidity : ℚ
  snow : ℤ
  cloud : ℚ
  lightning : ℤ
  tempK : ℚ
deriving DecidableEq

/-- The `struct climate_info` of `src/climate.c:75-87`. -/
structure ClimateInfo where
  code : String
  num_records : ℕ
  max_temp : ℚ
  max_temp_time : ℤ
  min_temp : ℚ
  min_temp_time : ℤ
  num_lightning_strikes : ℤ
  num_snow : ℤ
  sum_of_temperature : ℚ
  sum_of_humidity : ℚ
  sum_of_cloud_cover : ℚ
deriving DecidableEq

/-- The Kelvin-to-Fahrenheit conversion `atof(data[8]) * 1.8 - 459.67`
inlined at every temperature use in `analyze_file`. -/
def tempF (k : ℚ) : ℚ := k * 1.8 - 459.67

/-- Fahrenheit temperature of an observation. -/
def obsTemp (o : Obs) : ℚ := tempF o.tempK

/-- The timestamp stored with an extremum: `atol(data[1]) / 1000`
(C `long` division truncates toward zero). -/
def obsTime (o : Obs) : ℤ := Int.tdiv o.epochMillis 1000

/-- The initialisation branch of `analyze_file`
(`src/climate.c:156-168`): a fresh `climate_info` seeded from one
observation. -/
def seed (o : Obs) : ClimateInfo where
  code := o.code
  num_records := 1
  max_temp := obsTemp o
  max_temp_time := obsTime o
  min_temp := obsTemp o
  min_temp_time := obsTime o
  num_lightning_strikes := o.lightning
  num_snow := o.snow
  sum_of_temperature := obsTemp o
  sum_of_humidity := o.humidity
  sum_of_cloud_cover := o.cloud

/-- The update branch of `analyze_file` (`src/climate.c:169-184`):
fold one further observation into an existing `climate_info`.  The
extrema are replaced only on a strict comparison
(`max_temp < tempF`, `min_temp > tempF`). -/
def update (ci : ClimateInfo) (o : Obs) : ClimateInfo where
  code := ci.code
  num_records := ci.num_records + 1
  max_temp := if ci.max_temp < obsTemp o then obsTemp o else ci.max_temp
  max_temp_time := if ci.max_temp < obsTemp o then obsTime o else ci.max_temp_time
  min_temp := if obsTemp o < ci.min_temp then obsTemp o else ci.min_temp
  min_temp_time := if obsTemp o < ci.min_temp then obsTime o else ci.min_temp_time
  num_lightning_strikes := ci.num_lightning_strikes + o.lightning
  num_snow := ci.num_snow + o.snow
  sum_of_temperature := ci.sum_of_temperature + obsTemp o
  sum_of_humidity := ci.sum_of_humidity + o.humidity
  sum_of_cloud_cover := ci.sum_of_cloud_cover + o.cloud

/-- One `observe` step of the store (`src/climate.c:147-184`): scan the
`NULL`-terminated prefix of `states` for the first slot whose code
matches (`strcmp(data[0], states[val]->code) == 0`); update it in place,
or append a seeded record at the first empty slot.  The 50-slot capacity
is modelled separately (`scanIdx`, `scansInBounds`). -/
def observe (l : List ClimateInfo) (o : Obs) : List ClimateInfo :=
  match l with
  | [] => [seed o]
  | ci :: rest => if ci.code = o.code then update ci o :: rest else ci :: observe rest o

/-- The region codes of the filled slots, in slot order.  This is the
order in which `print_report` (`src/climate.c:192-206`) enumerates the
regions, both on the `States found:` line and for the per-state blocks. -/
def codes (l : List ClimateInfo) : List String := l.map (fun ci => ci.code)

/-- The slot index at which the scan loop of `src/climate.c:147-153`
stops for a given code: the first matching slot, or the first empty slot
(= the length of the filled prefix) when no slot matches.  The C code
then accesses `states[scanIdx]`; the array has 50 slots, so the access
is in bounds exactly when `scanIdx < 50`. -/
def scanIdx : List ClimateInfo → String → ℕ
  | [], _ => 0
  | ci :: rest, c => if ci.code = c then 0 else scanIdx rest c + 1

/-- Folding a whole observation stream into an initially empty store. -/
def aggregate (os : List Obs) : List ClimateInfo := os.foldl observe []

/-- Folding a sequence of observations into one region's record: the
first observation seeds it, each later one updates it. -/
def foldRegion (o : Obs) (os : List Obs) : ClimateInfo := os.foldl update (seed o)

/-- Characters skipped by `atof` / `atol` before the number
(C `isspace`). -/
def isSpaceChar (c : Char) : Bool :=
  c = ' ' || c = '\t' || c = '\n' || c = '\r'

/-- Consume a maximal run of decimal digits: returns the accumulated
value, the number of digits consumed, and the remaining characters. -/
def digitsAux : List Char → ℕ → ℕ → ℕ × ℕ × List Char
  | [], v, n => (v, n, [])
  | c :: cs, v, n =>
      if c.isDigit then digitsAux cs (10 * v + (c.toNat - 48)) (n + 1)
      else (v, n, c :: cs)

/-- Model of C `atol`: skip leading whitespace, read an optional sign and
a run of digits, and return 0 when no digits can be read. -/
def atol (s : String) : ℤ :=
  match s.data.dropWhile isSpaceChar with
  | '-' :: rest => -(((digitsAux rest 0 0).1 : ℤ))
  | '+' :: rest => (((digitsAux rest 0 0).1 : ℤ))
  | cs => (((digitsAux cs 0 0).1 : ℤ))

/-- Magnitude part of `atof`: digits, optionally followed by a point and
further digits. -/
def atofMag (cs : List Char) : ℚ :=
  match digitsAux cs 0 0 with
  | (ip, _, cs2) =>
      match cs2 with
      | '.' :: rest =>
          match digitsAux rest 0 0 with
          | (fp, k, _) => (ip : ℚ) + (fp : ℚ) / (10 : ℚ) ^ k
      | _ => (ip : ℚ)

/-- Model of C `atof` restricted to plain decimal notation (the TDV
inputs carry no exponents): skip leading whitespace, read an optional
sign and the longest decimal prefix, and return 0 when no conversion can
be performed. -/
def atof (s : String) : ℚ :=
  match s.data.dropWhile isSpaceChar with
  | '-' :: rest => -(atofMag rest)
  | '+' :: rest => atofMag rest
  | cs => atofMag cs

/-- One input line, represented by the token list `strtok` produces for
it.  `analyze_file` performs no validation: exactly 9 tokens are
required for deterministic behaviour.  Fewer tokens leave `data[i]`
indeterminate, more than 9 overflow `data[9]`, and a first token of 3 or
more characters overflows `strcpy` into `char code[3]`; all of these are
undefined behaviour in the C source and are modelled as `none`. -/
def parseLine (fields : List String) : Option Obs :=
  match fields with
  | [f0, f1, _f2, f3, f4, f5, f6, _f7, f8] =>
      if f0.length ≤ 2 then
        some { code := f0, epochMillis := atol f1, humidity := atof f3,
               snow := atol f4, cloud := atof f5, lightning := atol f6,
               tempK := atof f8 }
      else none
  | _ => none

/-- Process one line against the store.  When the scan of a parsed line
stops at slot 50 (a 51st distinct code in a full array), the C code
reads past the end of `states`; that undefined access is `none`. -/
def processLine (st : List ClimateInfo) (fields : List String) : Option (List ClimateInfo) :=
  match parseLine fields with
  | none => none
  | some o => if scanIdx st o.code < 50 then some (observe st o) else none

/-- `analyze_file` over one stream of lines. -/
def processStream : List ClimateInfo → List (List String) → Option (List ClimateInfo)
  | st, [] => some st
  | st, ln :: lns =>
      match processLine st ln with
      | none => none
      | some st2 => processStream st2 lns

/-- The file loop of `main` (`src/climate.c:105-120`) over already opened
streams: each stream is fully consumed against the same store before the
next begins. -/
def processStreams : List ClimateInfo → List (List (List String)) → Option (List ClimateInfo)
  | st, [] => some st
  | st, f :: fs =>
      match processStream st f with
      | none => none
      | some st2 => processStreams st2 fs

/-- Observable outcome of a run of `main`: the exit status, the error
messages printed, and the store handed to `print_report` (or `none` when
the run aborts before reporting). -/
structure RunResult where
  exitCode : ℕ
  errMessages : List String
  report : Option (List ClimateInfo)
deriving DecidableEq

/-- The message printed by `main` when `fopen` fails
(`src/climate.c:112`). -/
def fileErrorMessage : String := "File does not exist. Moving on to next file..."

/-- The file loop of `main` (`src/climate.c:105-125`) at the observation
level: `none` stands for a file `fopen` cannot open.  On the first such
file the program prints `fileErrorMessage` and returns `EXIT_FAILURE`
(non-zero) at once, without touching the remaining files and without
calling `print_report`; otherwise the stream is folded into the store
and the loop continues, ending in exit status 0 and a report. -/
def runFiles : List ClimateInfo → List (Option (List Obs)) → RunResult
  | st, [] => { exitCode := 0, errMessages := [], report := some st }
  | _, none :: _ => { exitCode := 1, errMessages := [fileErrorMessage], report := none }
  | st, some f :: fs => runFiles (f.foldl observe st) fs

/-- Modelled from the spec: the "first-seen order" of a stream of region
codes (spec §3, Registry) — each code listed at its first occurrence,
later occurrences ignored.  Used as the comparison target for the
snapshot order. -/
def firstSeenOrder (acc : List String) : List String → List String
  | [] => acc
  | c :: cs => firstSeenOrder (if c ∈ acc then acc else acc ++ [c]) cs

/-- Modelled from the spec: the maximum of the Fahrenheit temperatures of
a nonempty observation sequence (spec §8). -/
def maxTemps (o : Obs) (os : List Obs) : ℚ :=
  os.foldl (fun m x => max m (obsTemp x)) (obsTemp o)

/-- Modelled from the spec: the timestamp of the first (earliest-seen)
observation of the list whose Fahrenheit temperature equals `m`
(spec §8, tie-break for extrema). -/
def firstTimeAt (m : ℚ) : List Obs → Option ℤ
  | [] => none
  | o :: os => if obsTemp o = m then some (obsTime o) else firstTimeAt m os

/-- Runs the scan of `analyze_file` for each observation in turn and
checks that every resulting slot access `states[scanIdx]` stays inside
the 50-slot array. -/
def scansInBounds : List ClimateInfo → List Obs → Bool
  | _, [] => true
  | l, o :: os => decide (scanIdx l o.code < 50) && scansInBounds (observe l o) os

/-- Default record handed to `List.getD`; never actually selected in the
theorems below. -/
def ciDefault : ClimateInfo :=
  seed { code := "", epochMillis := 0, humidity := 0, snow := 0,
         cloud := 0, lightning := 0, tempK := 0 }

/-- An observation with the given code and all numeric fields zero, for
concrete instances. -/
def mkObs (c : String) : Obs :=
  { code := c, epochMillis := 0, humidity := 0, snow := 0, cloud := 0,
    lightning := 0, tempK := 0 }

/-- Sample observations for the concrete instances below. -/
def oCA : Obs := mkObs ("CA")

def oTX : Obs := mkObs ("TX")

def oTX2 : Obs :=
  { code := "TX", epochMillis := 5000, humidity := 1, snow := 0, cloud := 2,
    lightning := 1, tempK := 280 }

/-- A two-character code for index `i` (AA, AB, AC, ...): 51 distinct
codes that each still fit `char code[3]`. -/
def code2 (i : ℕ) : String :=
  String.mk [Char.ofNat (65 + i / 26), Char.ofNat (65 + i % 26)]

/-- 51 observations with 51 distinct region codes. -/
def obs51 : List Obs := (List.range 51).map (fun i => mkObs (code2 i))

/-- A well-formed TDV line (as its token list). -/
def tdvLine1 : List String :=
  ["CA", "1000", "aaa", "50", "0", "80", "1", "100000", "285.0"]

/-- A line whose humidity field `abc` does not parse as a number: the
spec requires it to be skipped. -/
def tdvBad : List String :=
  ["CA", "2000", "aaa", "abc", "1", "90", "0", "100000", "290.0"]

/-- A second well-formed TDV line. -/
def tdvLine3 : List String :=
  ["CA", "3000", "aaa", "60", "0", "70", "1", "100000", "280.0"]

lemma update_code (ci : ClimateInfo) (o : Obs) : (update ci o).code = ci.code := rfl

lemma update_num_records (ci : ClimateInfo) (o : Obs) :
    (update ci o).num_records = ci.num_records + 1 := rfl

lemma update_max (ci : ClimateInfo) (o : Obs) :
    (update ci o).max_temp = max ci.max_temp (obsTemp o) := by
  by_cases h : ci.max_temp < obsTemp o
  · simp [update, h, max_eq_right h.le]
  · simp [update, h, max_eq_left (not_lt.mp h)]

lemma update_max_time (ci : ClimateInfo) (o : Obs) :
    (update ci o).max_temp_time =
      if ci.max_temp < obsTemp o then obsTime o else ci.max_temp_time := rfl

lemma foldl_update_num_records (os : List Obs) (ci : ClimateInfo) :
    (os.foldl update ci).num_records = ci.num_records + os.length := by
  induction os generalizing ci with
  | nil => simp
  | cons x xs ih =>
      rw [List.foldl_cons, ih, update_num_records, List.length_cons]
      omega

lemma foldl_update_max (os : List Obs) (ci : ClimateInfo) :
    (os.foldl update ci).max_temp =
      os.foldl (fun m x => max m (obsTemp x)) ci.max_temp := by
  induction os generalizing ci with
  | nil => rfl
  | cons x xs ih => rw [List.foldl_cons, ih, update_max, List.foldl_cons]

lemma firstTimeAt_append_found {m : ℚ} {seen : List Obs} {t : ℤ}
    (h : firstTimeAt m seen = some t) (l : List Obs) :
    firstTimeAt m (seen ++ l) = some t := by
  induction seen with
  | nil => simp [firstTimeAt] at h
  | cons x xs ih =>
      rw [List.cons_append]
      simp only [firstTimeAt] at h ⊢
      split_ifs at h ⊢ with hx
      · exact h
      · exact ih h

lemma firstTimeAt_append_none {m : ℚ} {seen : List Obs}
    (h : ∀ x ∈ seen, obsTemp x ≠ m) (l : List Obs) :
    firstTimeAt m (seen ++ l) = firstTimeAt m l := by
  induction seen with
  | nil => rfl
  | cons x xs ih =>
      have hx := h x (List.mem_cons_self x xs)
      rw [List.cons_append]
      simp only [firstTimeAt]
      rw [if_neg hx]
      exact ih (fun y hy => h y (List.mem_cons_of_mem x hy))

lemma max_invariant (os : List Obs) (ci : ClimateInfo) (seen : List Obs)
    (h1 : ∀ x ∈ seen, obsTemp x ≤ ci.max_temp)
    (h2 : firstTimeAt ci.max_temp seen = some ci.max_temp_time) :
    (∀ x ∈ seen ++ os, obsTemp x ≤ (os.foldl update ci).max_temp) ∧
    firstTimeAt (os.foldl update ci).max_temp (seen ++ os) =
      some ((os.foldl update ci).max_temp_time) := by
  induction os generalizing ci seen with
  | nil => simpa using ⟨h1, h2⟩
  | cons x xs ih =>
      rw [List.foldl_cons]
      have h1' : ∀ y ∈ seen ++ [x], obsTemp y ≤ (update ci x).max_temp := by
        intro y hy
        rw [update_max]
        rcases List.mem_append.mp hy with hy | hy
        · exact le_trans (h1 y hy) (le_max_left _ _)
        · have := List.mem_singleton.mp hy
          subst this
          exact le_max_right _ _
      have h2' : firstTimeAt (update ci x).max_temp (seen ++ [x]) =
          some ((update ci x).max_temp_time) := by
        rw [update_max, update_max_time]
        by_cases hlt : ci.max_temp < obsTemp x
        · rw [if_pos hlt, max_eq_right hlt.le]
          rw [firstTimeAt_append_none
                (fun y hy => ne_of_lt (lt_of_le_of_lt (h1 y hy) hlt)) [x]]
          simp [firstTimeAt]
        · rw [if_neg hlt, max_eq_left (not_lt.mp hlt)]
          exact firstTimeAt_append_found h2 [x]
      have hstep := ih (update ci x) (seen ++ [x]) h1' h2'
      rw [List.append_assoc] at hstep
      simpa using hstep

/-- C1: folding observations into one region's record keeps `max_temp`
equal to the maximum Fahrenheit temperature seen, and `max_temp_time` is
the timestamp of the earliest observation attaining that maximum (the
running maximum is replaced only on a strictly greater temperature, so
ties keep the first). -/
theorem max_temp_is_max_with_earliest_tie (o : Obs) (os : List Obs) :
    (foldRegion o os).max_temp = maxTemps o os ∧
    firstTimeAt (maxTemps o os) (o :: os) = some ((foldRegion o os).max_temp_time) := by
  have hmax : (foldRegion o os).max_temp = maxTemps o os := by
    rw [foldRegion, foldl_update_max]
    rfl
  refine ⟨hmax, ?_⟩
  have h1 : ∀ y ∈ [o], obsTemp y ≤ (seed o).max_temp := by
    intro y hy
    have := List.mem_singleton.mp hy
    subst this
    exact le_refl _
  have h2 : firstTimeAt (seed o).max_temp [o] = some ((seed o).max_temp_time) := by
    simp [firstTimeAt, seed]
  have h := (max_invariant os (seed o) [o] h1 h2).2
  rw [show (os.foldl update (seed o)) = foldRegion o os from rfl, hmax] at h
  simpa using h

/-- C4: after folding a sequence of observations into one region's
record, `num_records` is exactly the number of observations folded in:
the seeding observation sets it to 1 and every later `update` adds
exactly 1, with no deduplication. -/
theorem record_count_counts_observations (o : Obs) (os : List Obs) :
    (foldRegion o os).num_records = os.length + 1 ∧
    ∀ (ci : ClimateInfo) (x : Obs), (update ci x).num_records = ci.num_records + 1 := by
  refine ⟨?_, fun ci x => rfl⟩
  rw [foldRegion, foldl_update_num_records]
  have : (seed o).num_records = 1 := rfl
  omega

lemma seed_code (o : Obs) : (seed o).code = o.code := rfl

lemma codes_cons (ci : ClimateInfo) (rest : List ClimateInfo) :
    codes (ci :: rest) = ci.code :: codes rest := rfl

lemma codes_observe (l : List ClimateInfo) (o : Obs) :
    codes (observe l o) = if o.code ∈ codes l then codes l else codes l ++ [o.code] := by
  induction l with
  | nil => simp [observe, codes, seed_code]
  | cons ci rest ih =>
      simp only [observe]
      by_cases hc : ci.code = o.code
      · have hmem : o.code ∈ codes (ci :: rest) := by
          rw [codes_cons, ← hc]
          exact List.mem_cons_self _ _
        rw [if_pos hc, if_pos hmem]
        simp only [codes_cons, update_code, hc]
      · have hne : ¬ (o.code = ci.code) := fun h => hc h.symm
        have hmem : (o.code ∈ codes (ci :: rest)) ↔ (o.code ∈ codes rest) := by
          rw [codes_cons]
          simp [List.mem_cons, hne]
        rw [if_neg hc]
        by_cases hm : o.code ∈ codes rest
        · rw [if_pos (hmem.mpr hm), codes_cons, codes_cons, ih, if_pos hm]
        · rw [if_neg (fun h => hm (hmem.mp h)), codes_cons, codes_cons, ih, if_neg hm,
              List.cons_append]

lemma codes_foldl (os : List Obs) (l : List ClimateInfo) :
    codes (os.foldl observe l) = firstSeenOrder (codes l) (os.map (fun o => o.code)) := by
  induction os generalizing l with
  | nil => rfl
  | cons o os ih =>
      rw [List.foldl_cons, List.map_cons, firstSeenOrder, ih, codes_observe]

/-- C3: the report enumerates the distinct region codes in first-seen
order (the order of each code's first appearance in the input),
regardless of how often codes recur; in particular input order
CA, TX, CA, WA yields snapshot order CA, TX, WA. -/
theorem snapshot_codes_first_seen_order (os : List Obs) :
    codes (aggregate os) = firstSeenOrder [] (os.map (fun o => o.code)) ∧
    codes (aggregate [mkObs ("CA"), mkObs ("TX"), mkObs ("CA"), mkObs ("WA")]) =
      ["CA", "TX", "WA"] :=
  ⟨codes_foldl os [], by decide⟩

lemma observe_num_records_pos (l : List ClimateInfo) (o : Obs)
    (h : ∀ ci ∈ l, 1 ≤ ci.num_records) :
    ∀ ci ∈ observe l o, 1 ≤ ci.num_records := by
  induction l with
  | nil =>
      intro ci hci
      rw [observe] at hci
      have := List.mem_singleton.mp hci
      subst this
      exact le_refl 1
  | cons c rest ih =>
      intro ci hci
      rw [observe] at hci
      split_ifs at hci with hc
      · rcases List.mem_cons.mp hci with heq | hm
        · subst heq
          rw [update_num_records]
          omega
        · exact h ci (List.mem_cons_of_mem c hm)
      · rcases List.mem_cons.mp hci with heq | hm
        · subst heq
          exact h _ (List.mem_cons_self _ _)
        · exact ih (fun x hx => h x (List.mem_cons_of_mem c hx)) ci hm

lemma aggregate_num_records_pos (os : List Obs) :
    ∀ ci ∈ aggregate os, 1 ≤ ci.num_records := by
  have gen : ∀ (os : List Obs) (l : List ClimateInfo),
      (∀ ci ∈ l, 1 ≤ ci.num_records) →
      ∀ ci ∈ os.foldl observe l, 1 ≤ ci.num_records := by
    intro os
    induction os with
    | nil =>
        intro l h
        simpa using h
    | cons o os ih =>
        intro l h
        rw [List.foldl_cons]
        exact ih _ (observe_num_records_pos l o h)
  exact gen os [] (by simp)

/-- C7: every record in the store has `record_count ≥ 1` (it is seeded
with 1 and only incremented), so the average computations at report time
never divide by zero. -/
theorem record_count_positive (os : List Obs) (ci : ClimateInfo)
    (h : ci ∈ aggregate os) :
    1 ≤ ci.num_records ∧ ((ci.num_records : ℚ)) ≠ 0 := by
  have h1 := aggregate_num_records_pos os ci h
  exact ⟨h1, Nat.cast_ne_zero.mpr (by omega)⟩

/-- Witness for C7 at a concrete singleton input. -/
theorem record_count_positive_witness :
    1 ≤ (seed oCA).num_records ∧ (((seed oCA).num_records : ℚ)) ≠ 0 :=
  record_count_positive [oCA] (seed oCA) (List.mem_singleton.mpr rfl)

lemma processStream_append (a b : List (List String)) (st : List ClimateInfo) :
    processStream st (a ++ b) =
      (processStream st a).bind (fun st2 => processStream st2 b) := by
  induction a generalizing st with
  | nil => rfl
  | cons ln lns ih =>
      rw [List.cons_append]
      simp only [processStream]
      cases processLine st ln with
      | none => rfl
      | some st2 => exact ih st2

/-- C5: feeding the lines split across any number of input streams (in
the same overall line order) drives the store through exactly the same
states as feeding them as one concatenated stream, so the final snapshot
is identical in every field and in region order. -/
theorem multi_stream_equals_concatenated (st : List ClimateInfo)
    (fs : List (List (List String))) :
    processStreams st fs = processStream st fs.flatten := by
  induction fs generalizing st with
  | nil => rfl
  | cons f fs ih =>
      have hfl : (f :: fs).flatten = f ++ fs.flatten := rfl
      rw [hfl, processStream_append]
      simp only [processStreams]
      cases processStream st f with
      | none => rfl
      | some st2 => exact ih st2

lemma list_set_cons_succ (a : ClimateInfo) (l : List ClimateInfo) (n : ℕ) (b : ClimateInfo) :
    (a :: l).set (n + 1) b = a :: l.set n b := rfl

lemma list_getD_cons_zero (a : ClimateInfo) (l : List ClimateInfo) (d : ClimateInfo) :
    (a :: l).getD 0 d = a := rfl

lemma list_getD_cons_succ (a : ClimateInfo) (l : List ClimateInfo) (n : ℕ) (d : ClimateInfo) :
    (a :: l).getD (n + 1) d = l.getD n d := rfl

/-- C6: `observe` either updates in place the single record whose code
matches — the store is the old store with exactly the slot the scan
stopped at replaced by its `update`, every other slot unchanged — or,
when the code is absent, appends a freshly seeded record at the end of
iteration order, leaving all existing records unchanged. -/
theorem observe_frame (l : List ClimateInfo) (o : Obs) :
    (o.code ∈ codes l →
      scanIdx l o.code < l.length ∧
      (l.getD (scanIdx l o.code) ciDefault).code = o.code ∧
      observe l o = l.set (scanIdx l o.code) (update (l.getD (scanIdx l o.code) ciDefault) o)) ∧
    (o.code ∉ codes l → observe l o = l ++ [seed o]) := by
  induction l with
  | nil =>
      constructor
      · intro h
        simp [codes] at h
      · intro _
        rfl
  | cons ci rest ih =>
      by_cases hc : ci.code = o.code
      · constructor
        · intro _
          simp only [observe, scanIdx, if_pos hc]
          refine ⟨by simp, ?_, ?_⟩
          · rw [list_getD_cons_zero]
            exact hc
          · rw [list_getD_cons_zero]
            rfl
        · intro h
          exact absurd (by rw [codes_cons, ← hc]; exact List.mem_cons_self _ _) h
      · have hne : ¬ (o.code = ci.code) := fun h => hc h.symm
        constructor
        · intro h
          have hm : o.code ∈ codes rest := by
            rcases List.mem_cons.mp (by rwa [codes_cons] at h) with h1 | h1
            · exact absurd h1 hne
            · exact h1
          obtain ⟨hlt, hcode, heq⟩ := ih.1 hm
          simp only [observe, scanIdx, if_neg hc, List.length_cons]
          refine ⟨by omega, ?_, ?_⟩
          · rw [list_getD_cons_succ]
            exact hcode
          · rw [list_getD_cons_succ, list_set_cons_succ, heq]
        · intro h
          have hm : o.code ∉ codes rest :=
            fun hmm => h (by rw [codes_cons]; exact List.mem_cons_of_mem _ hmm)
          simp only [observe, if_neg hc]
          rw [ih.2 hm, List.cons_append]

/-- Witness for C6: an absent code appends at the end; a present code
updates only the matched slot. -/
theorem observe_frame_witness :
    observe [seed oCA] oTX = [seed oCA, seed oTX] ∧
    observe [seed oCA, seed oTX] oTX2 = [seed oCA, update (seed oTX) oTX2] := by
  constructor
  · exact (observe_frame [seed oCA] oTX).2 (by decide)
  · have h := ((observe_frame [seed oCA, seed oTX] oTX2).1 (by decide)).2.2
    exact h

/-- C8: as soon as one named file cannot be opened, the run stops with
exit status 1 (non-zero), prints only the open-failure message, produces
no report, and — the result being independent of everything after the
failing file — processes none of the remaining files. -/
theorem unopenable_file_aborts (st : List ClimateInfo)
    (pre post : List (Option (List Obs)))
    (h : ∀ x ∈ pre, x ≠ none) :
    runFiles st (pre ++ none :: post) =
      { exitCode := 1, errMessages := [fileErrorMessage], report := none } := by
  induction pre generalizing st with
  | nil => rfl
  | cons x xs ih =>
      cases x with
      | none => exact absurd rfl (h none (List.mem_cons_self _ _))
      | some f =>
          rw [List.cons_append]
          simp only [runFiles]
          exact ih _ (fun y hy => h y (List.mem_cons_of_mem _ hy))

/-- Witness for C8: a good file, then an unopenable one, then another
file; the run aborts with status 1, the message, and no report. -/
theorem unopenable_file_aborts_witness :
    runFiles [] [some [oCA], none, some [oTX]] =
      { exitCode := 1, errMessages := [fileErrorMessage], report := none } :=
  unopenable_file_aborts [] [some [oCA]] [some [oTX]] (by
    intro x hx
    rw [List.mem_singleton] at hx
    subst hx
    exact fun hcon => Option.noConfusion hcon)

/-- C9 counterexample: the spec asserts that 285.0 K converts to
53.63 °F within 0.01, but 285 · 1.8 − 459.67 = 53.33, which is 0.3 away
from 53.63. -/
theorem kelvin_285_gives_53_33_not_53_63 : ¬ (|tempF 285 - 53.63| < 0.01) := by
  intro h
  rw [abs_sub_lt_iff] at h
  have h2 := h.2
  norm_num [tempF] at h2

/-- C9 (amended): the Kelvin reading is converted by
`tempF = tempK * 1.8 - 459.67` and every aggregation step (seeding,
extremum comparison, temperature summing) uses the converted value; an
input of 285.0 K yields 53.33 °F to within 0.01. -/
theorem kelvin_conversion_before_aggregation (o : Obs) (ci : ClimateInfo) :
    obsTemp o = o.tempK * 1.8 - 459.67 ∧
    (seed o).max_temp = obsTemp o ∧
    (seed o).min_temp = obsTemp o ∧
    (seed o).sum_of_temperature = obsTemp o ∧
    (update ci o).sum_of_temperature = ci.sum_of_temperature + obsTemp o ∧
    (update ci o).max_temp = max ci.max_temp (obsTemp o) ∧
    |tempF 285 - 53.33| < 0.01 := by
  refine ⟨rfl, rfl, rfl, rfl, rfl, update_max ci o, ?_⟩
  rw [abs_sub_lt_iff]
  constructor <;> norm_num [tempF]

lemma codes_length (l : List ClimateInfo) : (codes l).length = l.length := by
  simp [codes]

lemma scanIdx_lt_of_mem {l : List ClimateInfo} {c : String} (h : c ∈ codes l) :
    scanIdx l c < l.length := by
  induction l with
  | nil => simp [codes] at h
  | cons ci rest ih =>
      simp only [scanIdx, List.length_cons]
      by_cases hc : ci.code = c
      · rw [if_pos hc]
        omega
      · rw [if_neg hc]
        have hm : c ∈ codes rest := by
          rcases List.mem_cons.mp (by rwa [codes_cons] at h) with h1 | h1
          · exact absurd h1.symm hc
          · exact h1
        have := ih hm
        omega

lemma scanIdx_eq_of_not_mem {l : List ClimateInfo} {c : String} (h : c ∉ codes l) :
    scanIdx l c = l.length := by
  induction l with
  | nil => rfl
  | cons ci rest ih =>
      have hc : ¬ (ci.code = c) :=
        fun hq => h (by rw [codes_cons, ← hq]; exact List.mem_cons_self _ _)
      simp only [scanIdx, List.length_cons]
      rw [if_neg hc,
          ih (fun hm => h (by rw [codes_cons]; exact List.mem_cons_of_mem _ hm))]

lemma fso_length_le (ms : List String) (acc : List String) :
    acc.length ≤ (firstSeenOrder acc ms).length := by
  induction ms generalizing acc with
  | nil => exact le_refl _
  | cons m ms ih =>
      simp only [firstSeenOrder]
      by_cases hm : m ∈ acc
      · rw [if_pos hm]
        exact ih acc
      · rw [if_neg hm]
        calc acc.length ≤ (acc ++ [m]).length := by simp
        _ ≤ _ := ih _

lemma scans_aux (os : List Obs) (l : List ClimateInfo)
    (h : (firstSeenOrder (codes l) (os.map (fun o => o.code))).length ≤ 50) :
    scansInBounds l os = true := by
  induction os generalizing l with
  | nil => rfl
  | cons o os ih =>
      rw [List.map_cons, firstSeenOrder] at h
      simp only [scansInBounds, Bool.and_eq_true, decide_eq_true_eq]
      constructor
      · by_cases hm : o.code ∈ codes l
        · rw [if_pos hm] at h
          have h1 : (codes l).length ≤ 50 := le_trans (fso_length_le _ _) h
          have h2 := scanIdx_lt_of_mem hm
          have h3 := codes_length l
          omega
        · rw [if_neg hm] at h
          have h1 : (codes l ++ [o.code]).length ≤ 50 := le_trans (fso_length_le _ _) h
          have h2 := scanIdx_eq_of_not_mem hm
          have h3 := codes_length l
          rw [List.length_append] at h1
          simp only [List.length_singleton] at h1
          omega
      · apply ih
        rw [codes_observe]
        exact h

/-- C10: as long as an input stream introduces at most 50 distinct
region codes, every scan of the `states` array stops at an index
strictly below 50 (a matching slot or the first empty slot), so every
`states[val]` access is in bounds; a stream introducing a 51st distinct
code drives the scan to index 50, past the end of the array. -/
theorem scan_stays_in_bounds_up_to_50_regions :
    (∀ os : List Obs,
        (firstSeenOrder [] (os.map (fun o => o.code))).length ≤ 50 →
        scansInBounds [] os = true) ∧
    scansInBounds [] obs51 = false := by
  constructor
  · intro os h
    exact scans_aux os [] h
  · decide

/-- Witness for C10 at a two-region input. -/
theorem scan_stays_in_bounds_witness : scansInBounds [] [oCA, oTX] = true :=
  scan_stays_in_bounds_up_to_50_regions.1 [oCA, oTX] (by decide)

/-- C2 is violated by the code: `analyze_file` performs no validation,
so a 9-field line whose humidity field is the non-numeric `abc` is not
skipped — `atof` yields 0 and the line is folded in, incrementing
`num_records` to 3 where the claimed skip would leave 2.  (Lines with
fewer or more than 9 tab-separated fields fare worse: the C code reads
indeterminate `data[i]` pointers or writes past `data[9]`.) -/
theorem malformed_line_is_folded_not_skipped :
    (processStream [] [tdvLine1, tdvBad, tdvLine3]).map
        (fun st => st.map (fun ci => (ci.code, ci.num_records))) =
      some [("CA", 3)] ∧
    (parseLine tdvBad).map (fun o => o.humidity) = some 0 := by
  constructor
  · rfl
  · have h : (parseLine tdvBad).map (fun o => o.humidity) = some (((0 : ℕ) : ℚ)) := rfl
    rw [h]
    simp

end Climate
